import Mathlib

/-!
# gpgme binding: shallow embedding and verified properties

The Go package wraps the GPGME engine through cgo.  The embedding keeps the Go
side of every function and takes what the foreign engine or the host stream
answers as an explicit input.

Conventions
* A foreign handle or pointer is a `Nat`; `0` is the null pointer.
* A Go `error` is `Option GoError`; `none` is `nil`.
* A receiver or a `*Data` argument is modelled by the value it points to; a
  `*Key` stored in a field or slice is `Option Key` (`none` is the nil pointer).
* A function that can raise a run-time panic (index out of range, nil
  dereference) or run into undefined foreign behaviour returns `Option`, and
  `none` is that fault.
* Bytes are `Nat`s; a byte slice or a foreign byte buffer is a `List Nat`.
-/

namespace Gpgme

/-! ## Foreign constants (libgpg-error, errno.h) -/

/-- Modelled from the spec: the designated "no error" code of the engine,
`GPG_ERR_NO_ERROR` of gpg-error.h, which is not part of the sources. -/
def GPG_ERR_NO_ERROR : Nat := 0

/-- Modelled from the spec: the designated "end of sequence" code of the engine,
`GPG_ERR_EOF` of gpg-error.h, which is not part of the sources. -/
def GPG_ERR_EOF : Nat := 16383

/-- Modelled from the spec: the designated "canceled" outcome of the engine,
`GPG_ERR_CANCELED` of gpg-error.h, which is not part of the sources. -/
def GPG_ERR_CANCELED : Nat := 99

/-- Modelled from the spec: the mask selecting the code part of a
`gpgme_error_t` (`GPG_ERR_CODE_MASK` of gpg-error.h); the bits above it name
the error source. -/
def GPG_ERR_CODE_MASK : Nat := 65535

/-- Modelled from the spec: the I/O error class signalled by the stream
callbacks, `EIO` of errno.h. -/
def EIO : Nat := 5

/-- Modelled from the spec: `gpgme_err_code`, the engine's projection of an
error value onto its stable code. -/
def gpgme_err_code (err : Nat) : Nat := err &&& GPG_ERR_CODE_MASK

/-! ## ErrorModel -/

/-- Go `type ErrorCode int`; the values that occur are codes in `[0, 65535]`. -/
abbrev ErrorCode := Nat

def ErrorNoError : ErrorCode := GPG_ERR_NO_ERROR

def ErrorEOF : ErrorCode := GPG_ERR_EOF

/-- Go `type Error struct { err C.gpgme_error_t }`. -/
structure Error where
  err : Nat
deriving DecidableEq, Repr

/-- Dynamic values of the Go interface type `error` that this package meets. -/
inductive GoError where
  /-- A value of dynamic type `gpgme.Error`. -/
  | gpgme (e : Error)
  /-- The sentinel `io.EOF`. -/
  | EOF
  /-- A `syscall.Errno` produced by cgo from a non-zero `errno`. -/
  | errno (n : Nat)
  /-- Any other host error value. -/
  | other (id : Nat)
deriving DecidableEq, Repr

/-- The Go interface type `error`; `none` is `nil`. -/
abbrev error := Option GoError

/-- Go `func (e Error) Code() ErrorCode`. -/
def Error.Code (e : Error) : ErrorCode := gpgme_err_code e.err

/-- Go `func handleError(err C.gpgme_error_t) error`. -/
def handleError (err : Nat) : error :=
  let e : Error := { err := err }
  if e.Code = ErrorNoError then none else some (GoError.gpgme e)

/-- Go `func cbool(b bool) C.int`. -/
def cbool (b : Bool) : Int := if b then 1 else 0

/-- The error cgo returns next to a C result: `nil` when `errno` is zero after
the call, the `syscall.Errno` otherwise. -/
def cgoErrno (errno : Nat) : error :=
  if errno = 0 then none else some (GoError.errno errno)

/-! ## Key and Context -/

/-- Go `type Key struct { k C.gpgme_key_t }`. -/
structure Key where
  k : Nat
deriving DecidableEq, Repr

/-- Go `func newKey() *Key`: a fresh key with a null handle. -/
def newKey : Key := { k := 0 }

/-- Go `*os.File` as the passphrase relay sees it: the descriptor it wraps and
its name. -/
structure File where
  fd : Nat
  name : String
deriving DecidableEq, Repr

/-- Go `type Callback func(uidHint string, prevWasBad bool, f *os.File) error`. -/
abbrev Callback := String → Bool → Option File → error

/-- Go `type Context struct`. -/
structure Context where
  Key : Option Gpgme.Key
  KeyError : error
  callback : Option Callback
  ctx : Nat

/-- What `gpgme_op_keylist_next(c.ctx, &c.Key.k)` answers: its return value and
the handle it leaves in `*r_key`. -/
structure KeylistNextOutcome where
  err : Nat
  r_key : Nat
deriving DecidableEq, Repr

/-- Go `func New() (*Context, error)`, given the result of `gpgme_new(&c.ctx)`:
its return value and the handle it stored. -/
def New (r : Nat × Nat) : Context × error :=
  let c : Context := { Key := none, KeyError := none, callback := none, ctx := r.2 }
  (c, handleError r.1)

/-- Go `func (c *Context) KeyListStart(pattern string, secretOnly bool) error`,
given the return value of `gpgme_op_keylist_start`. -/
def Context.KeyListStart (_c : Context) (err : Nat) : error :=
  handleError err

/-- Go `func (c *Context) KeyListNext() bool`, given the engine's answer. -/
def Context.KeyListNext (c : Context) (r : KeylistNextOutcome) : Bool × Context :=
  let c := { c with Key := some newKey }
  let c := { c with Key := c.Key.map (fun (key : Gpgme.Key) => { key with k := r.r_key }) }
  match handleError r.err with
  | some err =>
    match err with
    | GoError.gpgme e =>
      if e.Code = ErrorEOF then (false, { c with KeyError := none })
      else (false, { c with KeyError := some err })
    | _ => (false, { c with KeyError := some err })
  | none => (true, { c with KeyError := none })

/-- The engine as `FindKeys` meets it: the answer of `gpgme_new`, of
`gpgme_op_keylist_start` for a pattern and a flag, and of the i-th
`gpgme_op_keylist_next` call of the listing (counted from 0). -/
structure KeylistEngine where
  gpgme_new : Nat × Nat
  gpgme_op_keylist_start : String → Int → Nat
  gpgme_op_keylist_next : Nat → KeylistNextOutcome

/-- The loop `for ctx.KeyListNext() { keys = append(keys, ctx.Key) }` of
`FindKeys`. `i` counts the calls that returned true so far. The result is the
context, the keys and the number of true-returning calls at the exit; `none`
when the fuel runs out first. -/
def FindKeys.loop (next : Nat → KeylistNextOutcome) :
    Nat → Nat → Context → List (Option Key) → Option (Context × List (Option Key) × Nat)
  | 0, _, _, _ => none
  | fuel + 1, i, ctx, keys =>
    match ctx.KeyListNext (next i) with
    | (true, ctx) => FindKeys.loop next fuel (i + 1) ctx (keys ++ [ctx.Key])
    | (false, ctx) => some (ctx, keys, i)

/-- Go `func FindKeys(pattern string, secretOnly bool) ([]*Key, error)`. The
deferred `ctx.KeyListEnd()` and `ctx.Release()` do not touch the results. -/
def FindKeys (E : KeylistEngine) (pattern : String) (secretOnly : Bool) (fuel : Nat) :
    Option (List (Option Key) × error) :=
  let keys : List (Option Key) := []
  match New E.gpgme_new with
  | (_, some err) => some (keys, some err)
  | (ctx, none) =>
    match ctx.KeyListStart (E.gpgme_op_keylist_start pattern (cbool secretOnly)) with
    | some err => some (keys, some err)
    | none =>
      match FindKeys.loop E.gpgme_op_keylist_next fuel 0 ctx keys with
      | none => none
      | some (ctx, keys, _) =>
        if ctx.KeyError ≠ none then some (keys, ctx.KeyError) else some (keys, none)

/-! ## Machine integer conversions -/

/-- Go conversion of an unsigned `C.size_t` value to `C.int` (32 bits, two's
complement): the low 32 bits, read as a signed number. -/
def C_int (n : Nat) : Int :=
  if n % 2 ^ 32 < 2 ^ 31 then ((n % 2 ^ 32 : Nat) : Int) else ((n % 2 ^ 32 : Nat) : Int) - 2 ^ 32

/-- Go conversion of a signed integer to `C.size_t` or `uintptr` (64 bits,
unsigned). -/
def size_t (n : Int) : Nat := (n % 2 ^ 64).toNat

/-- Go conversion of a signed integer to `uintptr`. -/
def uintptr (n : Int) : Nat := size_t n

/-- Go conversion of `EncryptFlag` (`uint`) to the C enum
`gpgme_encrypt_flags_t` (32 bits, unsigned). -/
def gpgme_encrypt_flags_t (flags : Nat) : Nat := flags % 2 ^ 32

/-! ## Stream callbacks -/

/-- C `memcpy(dst, src, n)` on byte buffers: the first `n` bytes of `dst` are
replaced by the first `n` bytes of `src`. Reading or writing past either buffer
is undefined behaviour, `none`. -/
def memcpy (dst src : List Nat) (n : Nat) : Option (List Nat) :=
  if n ≤ src.length ∧ n ≤ dst.length then some (src.take n ++ dst.drop n) else none

/-- Go `C.GoBytes(p, n)`: a Go slice holding the first `n` bytes at `p`. A negative
length panics; reading past the buffer is undefined behaviour. -/
def GoBytes (buffer : List Nat) (n : Int) : Option (List Nat) :=
  if n < 0 then none
  else if n.toNat ≤ buffer.length then some (buffer.take n.toNat) else none

/-- Outcome of one `d.r.Read(buf)` on the host reader: the scratch buffer after
the call, the count and the error. -/
structure HostRead where
  buf : List Nat
  n : Int
  err : error
deriving DecidableEq, Repr

/-- Outcome of one `d.w.Write(p)` on the host writer. -/
structure HostWrite where
  n : Int
  err : error
deriving DecidableEq, Repr

/-- What the read callback leaves behind: its return value, the value handed to
`gpgme_err_set_errno` (`none` when it was not called) and the engine-provided
buffer after the call. -/
structure ReadCallbackResult where
  ret : Int
  errno : Option Nat
  buffer : List Nat
deriving DecidableEq, Repr

/-- What the write callback leaves behind: its return value, the value handed
to `gpgme_err_set_errno` (`none` when it was not called) and the byte slices
handed to the host writer, one per `Write` call. -/
structure WriteCallbackResult where
  ret : Int
  errno : Option Nat
  writes : List (List Nat)
deriving DecidableEq, Repr

/-- Go `func gogpgme_readfunc(handle, buffer unsafe.Pointer, size C.size_t) C.ssize_t`.
`Read` is the host reader `d.r`, `buffer` the engine-provided buffer. -/
def gogpgme_readfunc (Read : List Nat → HostRead) (buffer : List Nat) (size : Nat) :
    Option ReadCallbackResult :=
  let buf := List.replicate size 0
  let r := Read buf
  if r.err ≠ none ∧ r.err ≠ some GoError.EOF then
    some { ret := -1, errno := some EIO, buffer := buffer }
  else
    match r.buf[0]? with
    | none => none
    | some _ =>
      match memcpy buffer r.buf (size_t r.n) with
      | none => none
      | some buffer => some { ret := r.n, errno := none, buffer := buffer }

/-- Go `func gogpgme_writefunc(handle, buffer unsafe.Pointer, size C.size_t) C.ssize_t`.
`Write` is the host writer `d.w`, `buffer` the engine-provided buffer. -/
def gogpgme_writefunc (Write : List Nat → HostWrite) (buffer : List Nat) (size : Nat) :
    Option WriteCallbackResult :=
  match GoBytes buffer (C_int size) with
  | none => none
  | some p =>
    let r := Write p
    if r.err ≠ none ∧ r.err ≠ some GoError.EOF then
      some { ret := -1, errno := some EIO, writes := [p] }
    else
      some { ret := r.n, errno := none, writes := [p] }

/-! ## Passphrase relay -/

/-- What the relay does to the host, in order. -/
inductive PassEvent where
  /-- The call `c.callback(uidHint, prevWasBad, f)`. -/
  | callback (uidHint : String) (prevWasBad : Bool) (f : Option File)
  /-- The call `f.Close()`. -/
  | close (f : Option File)
deriving DecidableEq, Repr

/-- Go `func gogpgme_passfunc(hook, uid_hint, passphrase_info, prev_was_bad, fd)`.
`NewFile` is `os.NewFile` of the Go library (its result may be nil). The result
is the code returned to the engine and the host events in order; the deferred
`f.Close()` runs after the return value is fixed. A nil `c.callback` panics. -/
def gogpgme_passfunc (NewFile : Nat → String → Option File) (c : Context)
    (uid_hint : String) (prev_was_bad fd : Int) : Option (Nat × List PassEvent) :=
  let go_uid_hint := uid_hint
  let f := NewFile (uintptr fd) go_uid_hint
  match c.callback with
  | none => none
  | some cb =>
    let err := cb go_uid_hint (prev_was_bad ≠ 0) f
    if err ≠ none then
      some (GPG_ERR_CANCELED, [PassEvent.callback go_uid_hint (prev_was_bad ≠ 0) f, PassEvent.close f])
    else
      some (0, [PassEvent.callback go_uid_hint (prev_was_bad ≠ 0) f, PassEvent.close f])

/-! ## Release of foreign handles -/

/-- Calls into the C side that the properties below count. -/
inductive CCall where
  | gpgme_release (ctx : Nat)
  | gpgme_data_release (dh : Nat)
  | calloc (nmemb size : Nat)
  | gpgme_op_encrypt (ctx : Nat) (recp : List Nat) (flags : Nat) (plain cipher : Nat)
  /-- The call `C.free(recp)`, `recp` being the block of the `calloc` before it. -/
  | free_recp
deriving DecidableEq, Repr

/-- Go `C.struct_gpgme_data_cbs`: which of the callbacks are registered. -/
structure gpgme_data_cbs where
  read : Bool
  write : Bool
  seek : Bool
deriving DecidableEq, Repr

/-- Go `type Data struct`; `r`, `w`, `s` are references to host streams. -/
structure Data where
  dh : Nat
  cbs : gpgme_data_cbs
  r : Option Nat
  w : Option Nat
  s : Option Nat
deriving DecidableEq, Repr

/-- Go `func newData() *Data`. -/
def newData : Data :=
  { dh := 0, cbs := { read := false, write := false, seek := false }, r := none, w := none, s := none }

/-- Go `func NewData() (*Data, error)`, given the result of `gpgme_data_new(&d.dh)`:
its return value and the handle it stored. -/
def NewData (r : Nat × Nat) : Data × error :=
  let d := newData
  ({ d with dh := r.2 }, handleError r.1)

/-- Go `func (c *Context) Release()`: the context afterwards and the C calls made. -/
def Context.Release (c : Context) : Context × List CCall :=
  if c.ctx = 0 then (c, [])
  else ({ c with ctx := 0 }, [CCall.gpgme_release c.ctx])

/-- Go `func (d *Data) Close() error`. `errno` is what `errno` holds after
`gpgme_data_release` when that call is made. -/
def Data.Close (d : Data) (errno : Nat) : Data × error × List CCall :=
  if d.dh = 0 then (d, none, [])
  else ({ d with dh := 0 }, cgoErrno errno, [CCall.gpgme_data_release d.dh])

/-- A sequence of `Release` calls on one context. -/
def Context.ReleaseSeq (c : Context) : Nat → Context × List CCall
  | 0 => (c, [])
  | n + 1 =>
    let r := c.Release
    let rest := Context.ReleaseSeq r.1 n
    (rest.1, r.2 ++ rest.2)

/-- A sequence of `Close` calls on one data object, one `errno` per call: the
object afterwards, the error of each call and the C calls made. -/
def Data.CloseSeq (d : Data) : List Nat → Data × List error × List CCall
  | [] => (d, [], [])
  | errno :: rest =>
    let r := d.Close errno
    let tail := Data.CloseSeq r.1 rest
    (tail.1, r.2.1 :: tail.2.1, r.2.2 ++ tail.2.2)


/-! ## Direct read, write and seek on a data object -/

/-- The engine's data transport as the direct accessors meet it, over an engine
state `σ`. Each call answers the C return value and the `errno` it leaves;
`gpgme_data_read` also answers the caller's buffer after the call. -/
structure DataEngine (σ : Type) where
  gpgme_data_write : σ → Nat → List Nat → (Int × Nat) × σ
  gpgme_data_read : σ → Nat → List Nat → (Int × Nat × List Nat) × σ
  gpgme_data_seek : σ → Nat → Int → Int → (Int × Nat) × σ

/-- Go `func (d *Data) Write(p []byte) (int, error)`. The address `&p[0]` is taken
before the engine is called. -/
def Data.Write {σ : Type} (E : DataEngine σ) (st : σ) (d : Data) (p : List Nat) :
    Option ((Int × error) × σ) :=
  match p[0]? with
  | none => none
  | some _ =>
    let r := E.gpgme_data_write st d.dh p
    let n := r.1.1
    let err := cgoErrno r.1.2
    if err ≠ none then some ((0, err), r.2)
    else if n = 0 then some ((0, some GoError.EOF), r.2)
    else some ((n, none), r.2)

/-- Go `func (d *Data) Read(p []byte) (int, error)`. The result holds `p` after
the call, the count and the error. The address `&p[0]` is taken before the
engine is called. -/
def Data.Read {σ : Type} (E : DataEngine σ) (st : σ) (d : Data) (p : List Nat) :
    Option ((List Nat × Int × error) × σ) :=
  match p[0]? with
  | none => none
  | some _ =>
    let r := E.gpgme_data_read st d.dh p
    let n := r.1.1
    let err := cgoErrno r.1.2.1
    if err ≠ none then some ((r.1.2.2, 0, err), r.2)
    else if n = 0 then some ((r.1.2.2, 0, some GoError.EOF), r.2)
    else some ((r.1.2.2, n, none), r.2)

/-- Go conversion of a signed 64-bit `int` to `C.int`. -/
def C_int_of_int (n : Int) : Int := C_int (size_t n)

/-- Go `func (d *Data) Seek(offset int64, whence int) (int64, error)`. -/
def Data.Seek {σ : Type} (E : DataEngine σ) (st : σ) (d : Data) (offset whence : Int) :
    (Int × error) × σ :=
  let r := E.gpgme_data_seek st d.dh offset (C_int_of_int whence)
  ((r.1.1, cgoErrno r.1.2), r.2)

/-- Modelled from the spec: `EINVAL` of errno.h, what the engine's data calls
leave in `errno` for a bad handle or a bad seek. -/
def EINVAL : Nat := 22

/-- Modelled from the spec: the engine's memory-backed data object ("byte
buffer with offset"), a byte array with a cursor, behind the handle the engine
gave out for it. The engine itself is not part of the sources. -/
structure MemData where
  handle : Nat
  bytes : List Nat
  offset : Nat
deriving DecidableEq, Repr

/-- Modelled from the spec: `gpgme_data_write` on the memory-backed object:
the bytes go in at the cursor, which moves past them; all of them are taken. -/
def mem_write (m : MemData) (dh : Nat) (p : List Nat) : (Int × Nat) × MemData :=
  if dh = 0 ∨ dh ≠ m.handle then ((-1, EINVAL), m)
  else
    ((p.length, 0),
      { m with
        bytes := m.bytes.take m.offset ++ p ++ m.bytes.drop (m.offset + p.length)
        offset := m.offset + p.length })

/-- Modelled from the spec: `gpgme_data_read` on the memory-backed object: as
many bytes as are left after the cursor and fit the buffer are copied to the
front of the buffer and the cursor moves past them; zero at the end. -/
def mem_read (m : MemData) (dh : Nat) (buf : List Nat) : (Int × Nat × List Nat) × MemData :=
  if dh = 0 ∨ dh ≠ m.handle then ((-1, EINVAL, buf), m)
  else
    let amt := min buf.length (m.bytes.length - m.offset)
    ((amt, 0, (m.bytes.drop m.offset).take amt ++ buf.drop amt),
      { m with offset := m.offset + amt })

/-- Modelled from the spec: `gpgme_data_seek` on the memory-backed object, with
the host seek conventions (0 start, 1 current, 2 end); the new absolute
position, or -1 and `EINVAL` outside the array. -/
def mem_seek (m : MemData) (dh : Nat) (offset whence : Int) : (Int × Nat) × MemData :=
  if dh = 0 ∨ dh ≠ m.handle then ((-1, EINVAL), m)
  else
    let target : Option Int :=
      if whence = 0 then some offset
      else if whence = 1 then some ((m.offset : Int) + offset)
      else if whence = 2 then some ((m.bytes.length : Int) + offset)
      else none
    match target with
    | none => ((-1, EINVAL), m)
    | some t =>
      if 0 ≤ t ∧ t ≤ (m.bytes.length : Int) then ((t, 0), { m with offset := t.toNat })
      else ((-1, EINVAL), m)

/-- Modelled from the spec: the memory-backed transport as a `DataEngine`. -/
def memEngine : DataEngine MemData :=
  { gpgme_data_write := mem_write, gpgme_data_read := mem_read, gpgme_data_seek := mem_seek }

/-- Reading with `Data.Read` into a buffer of `size` bytes until it reports
`io.EOF`: the bytes collected, the error that ended the loop when it was not
`io.EOF`, and the engine state. `none` is a fault or the fuel running out. -/
def readToEOF {σ : Type} (E : DataEngine σ) (d : Data) (size : Nat) :
    Nat → σ → List Nat → Option ((List Nat × error) × σ)
  | 0, _, _ => none
  | fuel + 1, st, acc =>
    match d.Read E st (List.replicate size 0) with
    | none => none
    | some ((p, n, err), st) =>
      match err with
      | some GoError.EOF => some ((acc ++ p.take n.toNat, none), st)
      | some e => some ((acc ++ p.take n.toNat, some e), st)
      | none => readToEOF E d size fuel st (acc ++ p.take n.toNat)

/-- Write `B`, seek to the start, read to the end: the round trip of the
tests on a data object `d` over the engine `E`. -/
def roundTrip {σ : Type} (E : DataEngine σ) (st : σ) (d : Data) (B : List Nat)
    (size fuel : Nat) : Option ((List Nat × error) × σ) :=
  match d.Write E st B with
  | none => none
  | some ((_, some e), st) => some (([], some e), st)
  | some ((_, none), st) =>
    match d.Seek E st 0 0 with
    | ((_, some e), st) => some (([], some e), st)
    | ((_, none), st) => readToEOF E d size fuel st []

/-! ## Encrypt -/

/-- Store through a pointer into a block of pointer-sized slots,
`*(recp + size*i) = v`; outside the block it is undefined behaviour. -/
def store (block : List Nat) (i v : Nat) : Option (List Nat) :=
  if i < block.length then some (block.set i v) else none

/-- The loop `for i := range recipients { ... *ptr = recipients[i].k }` of
`Encrypt`, with `todo` iterations left from index `i`. A nil recipient panics. -/
def Encrypt.loop (recipients : List (Option Key)) : Nat → Nat → List Nat → Option (List Nat)
  | 0, _, recp => some recp
  | todo + 1, i, recp =>
    match recipients[i]? with
    | some (some key) =>
      match store recp i key.k with
      | some recp => Encrypt.loop recipients todo (i + 1) recp
      | none => none
    | _ => none

/-- Go `func (c *Context) Encrypt(recipients []*Key, flags EncryptFlag, plaintext,
ciphertext *Data) error`, given the return value `err` of `gpgme_op_encrypt`.
The result is the Go error and the C calls in order; the deferred
`C.free(recp)` runs after the return value is fixed. -/
def Context.Encrypt (c : Context) (recipients : List (Option Gpgme.Key)) (flags : Nat)
    (plaintext ciphertext : Data) (err : Nat) : Option (error × List CCall) :=
  let size := 8
  let recp := List.replicate (recipients.length + 1) 0
  match Encrypt.loop recipients recipients.length 0 recp with
  | none => none
  | some recp =>
    some (handleError err,
      [CCall.calloc (recipients.length + 1) size,
       CCall.gpgme_op_encrypt c.ctx recp (gpgme_encrypt_flags_t flags) plaintext.dh ciphertext.dh,
       CCall.free_recp])


/-! ## Result graph: subkey timestamps -/

/-- Go arithmetic on `int64`: the value modulo 2^64, read as a signed number. -/
def int64 (n : Int) : Int := (n + 2 ^ 63) % 2 ^ 64 - 2 ^ 63

/-- Modelled from the spec: `unixToInternal` of Go's time package, the seconds
from January 1 of year 1 to the Unix epoch. The time package is not part of
the sources. -/
def unixToInternal : Int := 62135596800

/-- Modelled from the spec: Go's `time.Time` without a monotonic reading: `wall`
holds the nanoseconds, `ext` the seconds since January 1 of year 1, and `loc`
tells whether the location pointer is set (to `time.Local`) or nil. -/
structure Time where
  wall : Nat
  ext : Int
  loc : Bool
deriving DecidableEq, Repr

/-- Modelled from the spec: the zero value `time.Time{}`, the "not set"
sentinel. -/
def Time.zeroValue : Time := { wall := 0, ext := 0, loc := false }

/-- Modelled from the spec: Go's `time.Unix(sec, nsec)`: nanoseconds outside
`[0, 1e9)` are carried into the seconds, then the seconds are moved to the
internal epoch in `int64` arithmetic. -/
def time_Unix (sec nsec : Int) : Time :=
  if nsec < 0 ∨ nsec ≥ 1000000000 then
    let n := Int.tdiv nsec 1000000000
    let sec1 := int64 (sec + n)
    let nsec1 := int64 (nsec - n * 1000000000)
    if nsec1 < 0 then
      { wall := (nsec1 + 1000000000).toNat, ext := int64 (int64 (sec1 - 1) + unixToInternal),
        loc := true }
    else
      { wall := nsec1.toNat, ext := int64 (sec1 + unixToInternal), loc := true }
  else
    { wall := nsec.toNat, ext := int64 (sec + unixToInternal), loc := true }

/-- Modelled from the spec: Go's `func (t Time) Unix() int64`, the seconds since
the Unix epoch. -/
def Time.Unix (t : Time) : Int := int64 (t.ext - unixToInternal)

/-- Modelled from the spec: Go's `func (t Time) Nanosecond() int`. -/
def Time.Nanosecond (t : Time) : Nat := t.wall % 2 ^ 30

/-- Modelled from the spec: Go's `func (t Time) IsZero() bool`. -/
def Time.IsZero (t : Time) : Bool := decide (t.ext = 0 ∧ t.Nanosecond = 0)

/-- The fields of the foreign record behind `C.gpgme_subkey_t` that the
timestamp accessors read, both C `long int`. -/
structure gpgme_subkey where
  timestamp : Int
  expires : Int
deriving DecidableEq, Repr

/-- Go `type SubKey struct { k C.gpgme_subkey_t; parent *Key }`. -/
structure SubKey where
  k : gpgme_subkey
  parent : Option Key
deriving DecidableEq, Repr

/-- Go `func (k *SubKey) Created() time.Time`. -/
def SubKey.Created (k : SubKey) : Time :=
  if k.k.timestamp ≤ 0 then Time.zeroValue
  else time_Unix (int64 k.k.timestamp) 0

/-- Go `func (k *SubKey) Expires() time.Time`. -/
def SubKey.Expires (k : SubKey) : Time :=
  if k.k.expires ≤ 0 then Time.zeroValue
  else time_Unix (int64 k.k.expires) 0

/-! ## Memory-backed data from a byte slice -/

/-- Go `func NewDataBytes(b []byte) (*Data, error)`. `new_from_mem` is
`gpgme_data_new_from_mem` on the bytes at the buffer address, the size and the
copy flag: its return value and the handle it stored. The address `&b[0]` is
taken before the engine is called. -/
def NewDataBytes (new_from_mem : List Nat → Nat → Int → Nat × Nat) (b : List Nat) :
    Option (Data × error) :=
  let d := newData
  match b[0]? with
  | none => none
  | some _ =>
    let r := new_from_mem b b.length 1
    some ({ d with dh := r.2 }, handleError r.1)

/-! ## Sample inputs -/

/-- A listing that produces the keys 11 and 12 and then fails with code 58
from error source 7. -/
def sampleListing : KeylistEngine :=
  { gpgme_new := (0, 5)
    gpgme_op_keylist_start := fun _ _ => 0
    gpgme_op_keylist_next := fun i =>
      if i = 0 then { err := 0, r_key := 11 }
      else if i = 1 then { err := 0, r_key := 12 }
      else { err := 7 * 2 ^ 24 + 58, r_key := 0 } }

/-- A data transport whose calls all answer -1 and leave `errno` at 0, the
caller's buffer untouched. -/
def silentFailure : DataEngine Unit :=
  { gpgme_data_write := fun st _ _ => ((-1, 0), st)
    gpgme_data_read := fun st _ buf => ((-1, 0, buf), st)
    gpgme_data_seek := fun st _ _ _ => ((-1, 0), st) }


/-! ## ErrorModel and key enumeration -/

theorem handleError_eq_none_iff (err : Nat) :
    handleError err = none ↔ gpgme_err_code err = GPG_ERR_NO_ERROR := by
  unfold handleError Error.Code ErrorNoError
  by_cases h : gpgme_err_code err = GPG_ERR_NO_ERROR <;> simp [h]

theorem handleError_of_code_ne (err : Nat) (h : gpgme_err_code err ≠ GPG_ERR_NO_ERROR) :
    handleError err = some (GoError.gpgme { err := err }) := by
  unfold handleError Error.Code ErrorNoError
  simp [h]

/-- C1: `handleError` returns nil exactly when the code of the foreign error
value is the no-error code, and otherwise the `Error` wrapping that value, whose
`Code()` is the value's code; no error object it returns has the no-error code. -/
theorem handleError_spec (err : Nat) :
    (handleError err = none ↔ (Error.mk err).Code = ErrorNoError) ∧
    ((Error.mk err).Code ≠ ErrorNoError →
      handleError err = some (GoError.gpgme (Error.mk err)) ∧
      (Error.mk err).Code = gpgme_err_code err) ∧
    (∀ g : GoError, handleError err = some g →
      ∃ e : Error, g = GoError.gpgme e ∧ e.Code = (Error.mk err).Code ∧ e.Code ≠ ErrorNoError) := by
  refine ⟨?_, ?_, ?_⟩
  · exact handleError_eq_none_iff err
  · intro h
    exact ⟨handleError_of_code_ne err h, rfl⟩
  · intro g hg
    by_cases h : gpgme_err_code err = GPG_ERR_NO_ERROR
    · rw [(handleError_eq_none_iff err).mpr h] at hg
      cases hg
    · rw [handleError_of_code_ne err h] at hg
      cases hg
      exact ⟨Error.mk err, rfl, rfl, h⟩

/-- Witness for C1: an error value from source 7 with code 58 is wrapped as
it is. -/
theorem handleError_spec_witness :
    handleError (7 * 2 ^ 24 + 58) = some (GoError.gpgme (Error.mk (7 * 2 ^ 24 + 58))) ∧
    (Error.mk (7 * 2 ^ 24 + 58)).Code = gpgme_err_code (7 * 2 ^ 24 + 58) :=
  (handleError_spec (7 * 2 ^ 24 + 58)).2.1 (by decide)

theorem GPG_ERR_EOF_ne_NO_ERROR : GPG_ERR_EOF ≠ GPG_ERR_NO_ERROR := by decide

/-- Closed form of `KeyListNext`: the answer is true exactly on the no-error
code, the key holds what the engine stored, and the stored error is nil on the
no-error and the end-of-sequence code and the wrapped value otherwise. -/
theorem KeyListNext_eq (c : Context) (r : KeylistNextOutcome) :
    c.KeyListNext r =
      (decide (gpgme_err_code r.err = GPG_ERR_NO_ERROR),
        { Key := some (Key.mk r.r_key)
          KeyError :=
            if gpgme_err_code r.err = GPG_ERR_NO_ERROR ∨ gpgme_err_code r.err = GPG_ERR_EOF
            then none else some (GoError.gpgme (Error.mk r.err))
          callback := c.callback
          ctx := c.ctx }) := by
  by_cases h0 : gpgme_err_code r.err = GPG_ERR_NO_ERROR
  · simp [Context.KeyListNext, (handleError_eq_none_iff r.err).mpr h0, h0, newKey]
  · by_cases h1 : gpgme_err_code r.err = GPG_ERR_EOF
    · simp [Context.KeyListNext, handleError_of_code_ne r.err h0, h1, newKey,
        Error.Code, ErrorEOF, GPG_ERR_EOF_ne_NO_ERROR]
    · simp [Context.KeyListNext, handleError_of_code_ne r.err h0, h0, h1, newKey,
        Error.Code, ErrorEOF]

/-- C2: `KeyListNext` is a three-way step on the code of the engine's answer:
no-error gives true, the produced key and a nil stored error; end-of-sequence
gives false and a nil stored error; any other code gives false and a stored
`Error` carrying that code. -/
theorem KeyListNext_three_way (c : Context) (r : KeylistNextOutcome) :
    (gpgme_err_code r.err = GPG_ERR_NO_ERROR →
      (c.KeyListNext r).1 = true ∧
      (c.KeyListNext r).2.Key = some (Key.mk r.r_key) ∧
      (c.KeyListNext r).2.KeyError = none) ∧
    (gpgme_err_code r.err = GPG_ERR_EOF →
      (c.KeyListNext r).1 = false ∧ (c.KeyListNext r).2.KeyError = none) ∧
    (gpgme_err_code r.err ≠ GPG_ERR_NO_ERROR → gpgme_err_code r.err ≠ GPG_ERR_EOF →
      (c.KeyListNext r).1 = false ∧
      (c.KeyListNext r).2.KeyError = some (GoError.gpgme (Error.mk r.err)) ∧
      (Error.mk r.err).Code = gpgme_err_code r.err) := by
  rw [KeyListNext_eq]
  refine ⟨?_, ?_, ?_⟩
  · intro h
    simp [h]
  · intro h
    simp [h, GPG_ERR_EOF_ne_NO_ERROR]
  · intro h0 h1
    simp [h0, h1, Error.Code]

/-- Witness for C2: an end-of-sequence answer after a stored failure clears the
stored error and returns false. -/
theorem KeyListNext_three_way_witness :
    (Context.KeyListNext
      { Key := none, KeyError := some (GoError.gpgme (Error.mk 58)), callback := none, ctx := 5 }
      { err := 7 * 2 ^ 24 + 16383, r_key := 0 }).1 = false ∧
    (Context.KeyListNext
      { Key := none, KeyError := some (GoError.gpgme (Error.mk 58)), callback := none, ctx := 5 }
      { err := 7 * 2 ^ 24 + 16383, r_key := 0 }).2.KeyError = none :=
  (KeyListNext_three_way
    { Key := none, KeyError := some (GoError.gpgme (Error.mk 58)), callback := none, ctx := 5 }
    { err := 7 * 2 ^ 24 + 16383, r_key := 0 }).2.1 (by decide)

/-- The enumeration loop from position `i` of a listing that produces the keys
`ks` and then a failure code: it stops after the remaining keys, having
appended them in order. -/
theorem FindKeys_loop_eq (next : Nat → KeylistNextOutcome) (ks : List Nat)
    (hkeys : ∀ i (h : i < ks.length),
      gpgme_err_code (next i).err = GPG_ERR_NO_ERROR ∧ (next i).r_key = ks[i])
    (hterm : gpgme_err_code (next ks.length).err ≠ GPG_ERR_NO_ERROR) :
    ∀ (j fuel i : Nat) (ctx : Context) (keys : List (Option Key)),
      i + j = ks.length → j < fuel →
      FindKeys.loop next fuel i ctx keys =
        some ((ctx.KeyListNext (next ks.length)).2,
          keys ++ (ks.drop i).map (fun k => some (Key.mk k)), ks.length) := by
  intro j
  induction j with
  | zero =>
    intro fuel i ctx keys hi hf
    obtain ⟨fuel, rfl⟩ : ∃ f, fuel = f + 1 := ⟨fuel - 1, by omega⟩
    have hi : i = ks.length := by omega
    subst hi
    rw [FindKeys.loop, KeyListNext_eq]
    simp [hterm]
  | succ j ih =>
    intro fuel i ctx keys hi hf
    obtain ⟨fuel, rfl⟩ : ∃ f, fuel = f + 1 := ⟨fuel - 1, by omega⟩
    have hlt : i < ks.length := by omega
    obtain ⟨hc, hk⟩ := hkeys i hlt
    rw [FindKeys.loop, KeyListNext_eq]
    simp only [hc, decide_True]
    rw [ih fuel (i + 1) _ _ (by omega) (by omega)]
    rw [KeyListNext_eq, KeyListNext_eq]
    have hd : ks.drop i = ks[i] :: ks.drop (i + 1) := List.drop_eq_getElem_cons hlt
    rw [hd, List.map_cons, ← hk]
    simp

/-- C3: for a listing that starts successfully, produces the keys `ks` and then
the terminating code `t`, the loop of `FindKeys` makes exactly `ks.length`
true-returning `KeyListNext` calls, `FindKeys` returns those keys in order, and
the returned error is nil when `t` is end-of-sequence and otherwise the `Error`
wrapping `t`, whose code is `t`'s and is not the end-of-sequence code. -/
theorem FindKeys_enumeration (E : KeylistEngine) (pattern : String) (secretOnly : Bool)
    (ks : List Nat) (fuel : Nat)
    (hnew : gpgme_err_code E.gpgme_new.1 = GPG_ERR_NO_ERROR)
    (hstart : gpgme_err_code (E.gpgme_op_keylist_start pattern (cbool secretOnly))
      = GPG_ERR_NO_ERROR)
    (hkeys : ∀ i (h : i < ks.length),
      gpgme_err_code (E.gpgme_op_keylist_next i).err = GPG_ERR_NO_ERROR ∧
      (E.gpgme_op_keylist_next i).r_key = ks[i])
    (hterm : gpgme_err_code (E.gpgme_op_keylist_next ks.length).err ≠ GPG_ERR_NO_ERROR)
    (hfuel : ks.length < fuel) :
    (∃ ctx, FindKeys.loop E.gpgme_op_keylist_next fuel 0 (New E.gpgme_new).1 [] =
      some (ctx, ks.map (fun k => some (Key.mk k)), ks.length)) ∧
    FindKeys E pattern secretOnly fuel =
      some (ks.map (fun k => some (Key.mk k)),
        if gpgme_err_code (E.gpgme_op_keylist_next ks.length).err = GPG_ERR_EOF then none
        else some (GoError.gpgme (Error.mk (E.gpgme_op_keylist_next ks.length).err))) ∧
    (gpgme_err_code (E.gpgme_op_keylist_next ks.length).err ≠ GPG_ERR_EOF →
      (Error.mk (E.gpgme_op_keylist_next ks.length).err).Code =
        gpgme_err_code (E.gpgme_op_keylist_next ks.length).err ∧
      (Error.mk (E.gpgme_op_keylist_next ks.length).err).Code ≠ ErrorEOF) := by
  have hloop := FindKeys_loop_eq E.gpgme_op_keylist_next ks hkeys hterm ks.length fuel 0
    (New E.gpgme_new).1 [] (by omega) hfuel
  simp only [List.drop_zero, List.nil_append] at hloop
  refine ⟨⟨_, hloop⟩, ?_, ?_⟩
  · unfold FindKeys
    simp only [New, Context.KeyListStart] at hloop ⊢
    rw [(handleError_eq_none_iff _).mpr hnew, (handleError_eq_none_iff _).mpr hstart]
    simp only [hloop]
    rw [KeyListNext_eq]
    by_cases h1 : gpgme_err_code (E.gpgme_op_keylist_next ks.length).err = GPG_ERR_EOF
    · simp [h1]
    · simp [h1, hterm]
  · intro h1
    exact ⟨rfl, h1⟩

/-- Witness for C3: the sample listing yields its two keys in order and the
failure that ended it. -/
theorem FindKeys_enumeration_witness :
    FindKeys sampleListing "" false 3 =
      some ([some (Key.mk 11), some (Key.mk 12)],
        some (GoError.gpgme (Error.mk (7 * 2 ^ 24 + 58)))) :=
  (FindKeys_enumeration sampleListing "" false [11, 12] 3 (by decide) (by decide)
    (by
      intro i h
      have hi : i = 0 ∨ i = 1 := by
        simp only [List.length_cons, List.length_nil] at h
        omega
      rcases hi with rfl | rfl <;> exact ⟨by decide, rfl⟩)
    (by decide) (by decide)).2.1

/-! ## Stream callbacks -/

theorem size_t_of_nonneg (n : Int) (h0 : 0 ≤ n) (h1 : n < 2 ^ 64) : size_t n = n.toNat := by
  unfold size_t
  rw [Int.emod_eq_of_lt h0 h1]

theorem C_int_of_lt (n : Nat) (h : n < 2 ^ 31) : C_int n = (n : Int) := by
  unfold C_int
  have h1 : n % 2 ^ 32 = n := Nat.mod_eq_of_lt (by omega)
  rw [h1]
  exact if_pos h

/-- Counterexample to C4 as stated: a host read that ends the stream together
with its last three bytes is reported with length 3, not as a zero-length
read; and a request of size 0 that the host answers with success faults on the
element-0 access instead of returning. -/
theorem gogpgme_readfunc_counterexample :
    ((fun _ => { buf := [1, 2, 3, 0], n := 3, err := some GoError.EOF } : List Nat → HostRead)
        (List.replicate 4 0)).err = some GoError.EOF ∧
    gogpgme_readfunc (fun _ => { buf := [1, 2, 3, 0], n := 3, err := some GoError.EOF })
        [9, 9, 9, 9] 4 = some { ret := 3, errno := none, buffer := [1, 2, 3, 9] } ∧
    ¬ ((gogpgme_readfunc (fun _ => { buf := [1, 2, 3, 0], n := 3, err := some GoError.EOF })
        [9, 9, 9, 9] 4).map ReadCallbackResult.ret = some 0) ∧
    gogpgme_readfunc (fun buf => { buf := buf, n := 0, err := none }) [] 0 = none := by
  decide

/-- C4, amended: a host read error other than `io.EOF` sets `EIO`, returns -1
and leaves the engine buffer untouched, for every size. For a size above zero
and a host read within its contract, a read that reports no error or `io.EOF`
copies exactly the first `n` bytes of the scratch buffer to the front of the
engine buffer, leaves the rest of it unchanged, sets no errno and returns `n`;
so `io.EOF` is a zero-length success exactly when it comes with `n = 0`. -/
theorem gogpgme_readfunc_spec (Read : List Nat → HostRead) (buffer : List Nat) (size : Nat)
    (r : HostRead) (hr : Read (List.replicate size 0) = r) :
    (r.err ≠ none ∧ r.err ≠ some GoError.EOF →
      gogpgme_readfunc Read buffer size = some { ret := -1, errno := some EIO, buffer := buffer }) ∧
    (r.err = none ∨ r.err = some GoError.EOF →
      0 < size → r.buf.length = size → 0 ≤ r.n → r.n ≤ size → size ≤ buffer.length →
      size < 2 ^ 64 →
      gogpgme_readfunc Read buffer size =
        some { ret := r.n, errno := none,
               buffer := r.buf.take r.n.toNat ++ buffer.drop r.n.toNat } ∧
      (r.buf.take r.n.toNat ++ buffer.drop r.n.toNat).length = buffer.length ∧
      (r.n = 0 → gogpgme_readfunc Read buffer size =
        some { ret := 0, errno := none, buffer := buffer })) := by
  subst hr
  refine ⟨?_, ?_⟩
  · intro h
    simp [gogpgme_readfunc, h]
  · intro herr hsize hlen hn0 hn1 hcap h64
    have hidx : ∃ x, (Read (List.replicate size 0)).buf[0]? = some x := by
      cases hb : (Read (List.replicate size 0)).buf with
      | nil => rw [hb] at hlen; simp at hlen; omega
      | cons x xs => exact ⟨x, by simp⟩
    obtain ⟨x, hx⟩ := hidx
    have hnat : ((Read (List.replicate size 0)).n.toNat : Int) = (Read (List.replicate size 0)).n :=
      Int.toNat_of_nonneg hn0
    have hle : (Read (List.replicate size 0)).n.toNat ≤ size := by omega
    have hst : size_t (Read (List.replicate size 0)).n = (Read (List.replicate size 0)).n.toNat :=
      size_t_of_nonneg _ hn0 (by
        have : ((size : Nat) : Int) < 2 ^ 64 := by exact_mod_cast h64
        omega)
    have hcond : ¬ ((Read (List.replicate size 0)).err ≠ none ∧
        (Read (List.replicate size 0)).err ≠ some GoError.EOF) := by
      rcases herr with h | h <;> simp [h]
    have hmain : gogpgme_readfunc Read buffer size =
        some { ret := (Read (List.replicate size 0)).n, errno := none,
               buffer := (Read (List.replicate size 0)).buf.take
                   (Read (List.replicate size 0)).n.toNat ++
                 buffer.drop (Read (List.replicate size 0)).n.toNat } := by
      unfold gogpgme_readfunc
      simp only [hcond, if_false, hx, hst, memcpy]
      rw [if_pos ⟨by omega, by omega⟩]
    refine ⟨hmain, ?_, ?_⟩
    · simp only [List.length_append, List.length_take, List.length_drop]
      omega
    · intro hz
      rw [hmain, hz]
      simp

/-- Witness for C4: a successful host read of two bytes into a scratch buffer
of four. -/
theorem gogpgme_readfunc_spec_witness :
    gogpgme_readfunc (fun _ => { buf := [1, 2, 0, 0], n := 2, err := none }) [9, 9, 9, 9] 4 =
      some { ret := 2, errno := none, buffer := [1, 2, 9, 9] } :=
  ((gogpgme_readfunc_spec (fun _ => { buf := [1, 2, 0, 0], n := 2, err := none })
    [9, 9, 9, 9] 4 { buf := [1, 2, 0, 0], n := 2, err := none } rfl).2
      (Or.inl rfl) (by decide) rfl (by decide) (by decide) (by decide) (by decide)).1

theorem gogpgme_writefunc_wraps (Write : List Nat → HostWrite) (buffer : List Nat) :
    gogpgme_writefunc Write buffer (2 ^ 31) = none := by
  have h : C_int (2 ^ 31) < 0 := by decide
  unfold gogpgme_writefunc GoBytes
  rw [if_pos h]

/-- Counterexample to C5 as stated: a host write that reports `io.EOF` is a
non-nil error, yet the callback sets no errno and returns the count; and a size
of 2^31 does not survive the conversion to `C.int`, so no bytes are handed over. -/
theorem gogpgme_writefunc_counterexample :
    gogpgme_writefunc (fun _ => { n := 0, err := some GoError.EOF }) [1, 2, 3] 3 =
      some { ret := 0, errno := none, writes := [[1, 2, 3]] } ∧
    ¬ (gogpgme_writefunc (fun _ => { n := 0, err := some GoError.EOF }) [1, 2, 3] 3 =
      some { ret := -1, errno := some EIO, writes := [[1, 2, 3]] }) ∧
    gogpgme_writefunc (fun p => { n := p.length, err := none })
      (List.replicate (2 ^ 31) 0) (2 ^ 31) = none := by
  exact ⟨by decide, by decide, gogpgme_writefunc_wraps _ _⟩

/-- C5, amended: for a size below 2^31 the callback hands the host writer
exactly the first `size` bytes of the engine buffer in one `Write` call; it
returns the host's count and sets no errno when the write reports no error or
`io.EOF`, and sets `EIO` and returns -1 when it reports any other error. -/
theorem gogpgme_writefunc_spec (Write : List Nat → HostWrite) (buffer : List Nat) (size : Nat)
    (r : HostWrite) (hsize : size < 2 ^ 31) (hcap : size ≤ buffer.length)
    (hr : Write (buffer.take size) = r) :
    (∃ res, gogpgme_writefunc Write buffer size = some res ∧
      res.writes = [buffer.take size] ∧ (buffer.take size).length = size) ∧
    (r.err = none ∨ r.err = some GoError.EOF →
      gogpgme_writefunc Write buffer size =
        some { ret := r.n, errno := none, writes := [buffer.take size] }) ∧
    (r.err ≠ none ∧ r.err ≠ some GoError.EOF →
      gogpgme_writefunc Write buffer size =
        some { ret := -1, errno := some EIO, writes := [buffer.take size] }) := by
  subst hr
  have hgo : GoBytes buffer (C_int size) = some (buffer.take size) := by
    rw [C_int_of_lt size hsize]
    simp [GoBytes, hcap]
  have hlen : (buffer.take size).length = size := by
    simp [List.length_take, hcap]
  by_cases hc : (Write (buffer.take size)).err ≠ none ∧
      (Write (buffer.take size)).err ≠ some GoError.EOF
  · have hres : gogpgme_writefunc Write buffer size =
        some { ret := -1, errno := some EIO, writes := [buffer.take size] } := by
      simp only [gogpgme_writefunc, hgo]
      exact if_pos hc
    refine ⟨⟨_, hres, rfl, hlen⟩, ?_, fun _ => hres⟩
    intro h
    rcases h with h | h
    · exact absurd h hc.1
    · exact absurd h hc.2
  · have hres : gogpgme_writefunc Write buffer size =
        some { ret := (Write (buffer.take size)).n, errno := none,
               writes := [buffer.take size] } := by
      simp only [gogpgme_writefunc, hgo]
      exact if_neg hc
    exact ⟨⟨_, hres, rfl, hlen⟩, fun _ => hres, fun h => absurd h hc⟩

/-- Witness for C5: a host writer that fails with an error other than `io.EOF`
on a three-byte buffer. -/
theorem gogpgme_writefunc_spec_witness :
    gogpgme_writefunc (fun _ => { n := 1, err := some (GoError.other 0) }) [1, 2, 3, 4] 3 =
      some { ret := -1, errno := some EIO, writes := [[1, 2, 3]] } :=
  (gogpgme_writefunc_spec (fun _ => { n := 1, err := some (GoError.other 0) }) [1, 2, 3, 4] 3
    { n := 1, err := some (GoError.other 0) } (by decide) (by decide) rfl).2.2
      ⟨by decide, by decide⟩

/-! ## Passphrase relay -/

/-- C6: the relay invokes the registered host callback exactly once, with the
hint, with `prevWasBad` true exactly when the engine's flag is non-zero, and
with the file `os.NewFile` made for the descriptor; the same file is closed
afterwards whatever the callback returned; the code returned is `CANCELED`
(which is not 0) when the callback returned an error and 0 otherwise. -/
theorem gogpgme_passfunc_spec (NewFile : Nat → String → Option File) (c : Context)
    (cb : Callback) (uid_hint : String) (prev_was_bad fd : Int)
    (hcb : c.callback = some cb) :
    (∃ code, gogpgme_passfunc NewFile c uid_hint prev_was_bad fd =
      some (code,
        [PassEvent.callback uid_hint (decide (prev_was_bad ≠ 0)) (NewFile (uintptr fd) uid_hint),
         PassEvent.close (NewFile (uintptr fd) uid_hint)]) ∧
      (code = GPG_ERR_CANCELED ↔
        cb uid_hint (decide (prev_was_bad ≠ 0)) (NewFile (uintptr fd) uid_hint) ≠ none) ∧
      (code = 0 ↔
        cb uid_hint (decide (prev_was_bad ≠ 0)) (NewFile (uintptr fd) uid_hint) = none)) ∧
    ((decide (prev_was_bad ≠ 0)) = true ↔ prev_was_bad ≠ 0) ∧
    (0 ≤ fd → fd < 2 ^ 31 → uintptr fd = fd.toNat) := by
  refine ⟨?_, by simp, ?_⟩
  · by_cases h : cb uid_hint (decide (prev_was_bad ≠ 0)) (NewFile (uintptr fd) uid_hint) = none
    · refine ⟨0, ?_, ?_, ?_⟩
      · simp only [gogpgme_passfunc, hcb]
        rw [if_neg (not_not.mpr h)]
      · exact ⟨fun hc => absurd hc (by decide), fun hn => absurd h hn⟩
      · exact ⟨fun _ => h, fun _ => rfl⟩
    · refine ⟨GPG_ERR_CANCELED, ?_, ?_, ?_⟩
      · simp only [gogpgme_passfunc, hcb]
        rw [if_pos h]
      · exact ⟨fun _ => h, fun _ => rfl⟩
      · exact ⟨fun hc => absurd hc (by decide), fun hn => absurd hn h⟩
  · intro h0 h1
    exact size_t_of_nonneg fd h0 (by omega)

/-- Witness for C6: a callback that refuses a second attempt cancels the
operation, and the file is closed all the same. -/
theorem gogpgme_passfunc_spec_witness :
    ∃ code, gogpgme_passfunc (fun fd name => some { fd := fd, name := name })
        { Key := none, KeyError := none, ctx := 5
          callback := some (fun _ bad _ => if bad then some (GoError.other 0) else none) }
        "" 1 7 =
      some (code,
        [PassEvent.callback "" (decide ((1 : Int) ≠ 0))
           ((fun fd name => some { fd := fd, name := name } : Nat → String → Option File)
             (uintptr 7) ""),
         PassEvent.close
           ((fun fd name => some { fd := fd, name := name } : Nat → String → Option File)
             (uintptr 7) "")]) ∧
      (code = GPG_ERR_CANCELED ↔
        (fun _ bad _ => if bad then some (GoError.other 0) else none : Callback) ""
          (decide ((1 : Int) ≠ 0))
          ((fun fd name => some { fd := fd, name := name } : Nat → String → Option File)
            (uintptr 7) "") ≠ none) ∧
      (code = 0 ↔
        (fun _ bad _ => if bad then some (GoError.other 0) else none : Callback) ""
          (decide ((1 : Int) ≠ 0))
          ((fun fd name => some { fd := fd, name := name } : Nat → String → Option File)
            (uintptr 7) "") = none) :=
  (gogpgme_passfunc_spec (fun fd name => some { fd := fd, name := name })
    { Key := none, KeyError := none, ctx := 5
      callback := some (fun _ bad _ => if bad then some (GoError.other 0) else none) }
    (fun _ bad _ => if bad then some (GoError.other 0) else none) "" 1 7 rfl).1

/-! ## Idempotent release -/

theorem Data.Close_of_null (d : Data) (h : d.dh = 0) (errno : Nat) :
    d.Close errno = (d, none, []) := by
  simp [Data.Close, h]

theorem Context.Release_of_null (c : Context) (h : c.ctx = 0) : c.Release = (c, []) := by
  simp [Context.Release, h]

theorem Data.CloseSeq_of_null (d : Data) (h : d.dh = 0) (errnos : List Nat) :
    d.CloseSeq errnos = (d, List.replicate errnos.length none, []) := by
  induction errnos with
  | nil => rfl
  | cons e es ih =>
    have hc : d.Close e = (d, none, []) := by simp [Data.Close, h]
    simp [Data.CloseSeq, hc, ih, List.replicate_succ]

theorem Context.ReleaseSeq_of_null (c : Context) (h : c.ctx = 0) (n : Nat) :
    c.ReleaseSeq n = (c, []) := by
  induction n with
  | zero => rfl
  | succ n ih =>
    have hc : c.Release = (c, []) := by simp [Context.Release, h]
    simp [Context.ReleaseSeq, hc, ih]

/-- C7: over any sequence of `Close` calls on a data object (of `Release` calls
on a context) the engine's release function is called exactly once, on the
original handle, when that handle was not null, and never when it was; the
handle is null after the first call; and every later call makes no C call,
leaves the object as it is and, for `Close`, returns nil. -/
theorem release_idempotent :
    (∀ (d : Data) (errno : Nat) (errnos : List Nat),
      (d.Close errno).1.dh = 0 ∧
      (d.Close errno).2.2 = (if d.dh = 0 then [] else [CCall.gpgme_data_release d.dh]) ∧
      (∀ e, (d.Close errno).1.Close e = ((d.Close errno).1, none, [])) ∧
      d.CloseSeq (errno :: errnos) =
        ((d.Close errno).1, (d.Close errno).2.1 :: List.replicate errnos.length none,
          if d.dh = 0 then [] else [CCall.gpgme_data_release d.dh]) ∧
      (d.dh = 0 → d.Close errno = (d, none, []))) ∧
    (∀ (c : Context) (n : Nat),
      c.Release.1.ctx = 0 ∧
      c.Release.2 = (if c.ctx = 0 then [] else [CCall.gpgme_release c.ctx]) ∧
      c.Release.1.Release = (c.Release.1, []) ∧
      c.ReleaseSeq (n + 1) =
        (c.Release.1, if c.ctx = 0 then [] else [CCall.gpgme_release c.ctx]) ∧
      (c.ctx = 0 → c.Release = (c, []))) := by
  constructor
  · intro d errno errnos
    have hnull : (d.Close errno).1.dh = 0 := by
      by_cases h : d.dh = 0 <;> simp [Data.Close, h]
    have hcalls : (d.Close errno).2.2 =
        (if d.dh = 0 then [] else [CCall.gpgme_data_release d.dh]) := by
      by_cases h : d.dh = 0 <;> simp [Data.Close, h]
    refine ⟨hnull, hcalls, ?_, ?_, ?_⟩
    · intro e
      exact Data.Close_of_null _ hnull e
    · simp only [Data.CloseSeq, Data.CloseSeq_of_null _ hnull, hcalls, List.append_nil]
    · intro h
      exact Data.Close_of_null d h errno
  · intro c n
    have hnull : c.Release.1.ctx = 0 := by
      by_cases h : c.ctx = 0 <;> simp [Context.Release, h]
    have hcalls : c.Release.2 = (if c.ctx = 0 then [] else [CCall.gpgme_release c.ctx]) := by
      by_cases h : c.ctx = 0 <;> simp [Context.Release, h]
    refine ⟨hnull, hcalls, ?_, ?_, ?_⟩
    · exact Context.Release_of_null _ hnull
    · simp only [Context.ReleaseSeq, Context.ReleaseSeq_of_null _ hnull, hcalls, List.append_nil]
    · intro h
      exact Context.Release_of_null c h

/-- Witness for C7: three `Close` calls on a data object with handle 4 release
that handle once; the first call returns the errno of the release and the later
ones nil. -/
theorem release_idempotent_witness :
    Data.CloseSeq { newData with dh := 4 } [5, 5, 5] =
      ((Data.Close { newData with dh := 4 } 5).1,
        (Data.Close { newData with dh := 4 } 5).2.1 :: List.replicate [5, 5].length none,
        if ({ newData with dh := 4 } : Data).dh = 0 then []
        else [CCall.gpgme_data_release ({ newData with dh := 4 } : Data).dh]) :=
  (release_idempotent.1 { newData with dh := 4 } 5 [5, 5]).2.2.2.1

/-! ## Direct read -/

/-- Counterexample to C9 as stated: when the engine answers -1 and leaves no
errno, `Data.Read` returns the count -1 with a nil error, so a returned count
can be negative and need not satisfy 0 < n <= len(p). -/
theorem Data_Read_counterexample :
    Data.Read silentFailure () { newData with dh := 1 } [0] = some (([0], -1, none), ()) ∧
    ¬ (∀ res st1, Data.Read silentFailure () { newData with dh := 1 } [0] = some (res, st1) →
      0 ≤ res.2.1 ∧ (res.2.2 = none → 0 < res.2.1 ∧ res.2.1 ≤ (([0] : List Nat).length : Int))) := by
  have h : Data.Read silentFailure () { newData with dh := 1 } [0] =
      some (([0], -1, none), ()) := by decide
  refine ⟨h, ?_⟩
  intro hall
  have h0 := (hall _ _ h).1
  exact absurd h0 (by decide)

/-- C9, amended: when the engine is called (the buffer is not empty),
`Data.Read` returns (0, the errno error) when the engine reports an error,
(0, `io.EOF`) on a zero-length read without error, and otherwise (n, nil) with
the engine's count `n` passed through unchanged; it never returns count zero
with a nil error. The returned count is negative exactly when the engine left
no errno and answered a negative count, and it lies in 0 < n <= len(p) exactly
when the engine left no errno and its count lies there. -/
theorem Data_Read_result {σ : Type} (E : DataEngine σ) (st : σ) (d : Data) (p : List Nat)
    (hp : p ≠ []) :
    ((E.gpgme_data_read st d.dh p).1.2.1 ≠ 0 →
      d.Read E st p = some (((E.gpgme_data_read st d.dh p).1.2.2, 0,
        some (GoError.errno (E.gpgme_data_read st d.dh p).1.2.1)),
        (E.gpgme_data_read st d.dh p).2)) ∧
    ((E.gpgme_data_read st d.dh p).1.2.1 = 0 → (E.gpgme_data_read st d.dh p).1.1 = 0 →
      d.Read E st p = some (((E.gpgme_data_read st d.dh p).1.2.2, 0, some GoError.EOF),
        (E.gpgme_data_read st d.dh p).2)) ∧
    ((E.gpgme_data_read st d.dh p).1.2.1 = 0 → (E.gpgme_data_read st d.dh p).1.1 ≠ 0 →
      d.Read E st p = some (((E.gpgme_data_read st d.dh p).1.2.2,
        (E.gpgme_data_read st d.dh p).1.1, none), (E.gpgme_data_read st d.dh p).2)) ∧
    (∃ res st1, d.Read E st p = some (res, st1) ∧ ¬ (res.2.1 = 0 ∧ res.2.2 = none)) ∧
    (∃ res st1, d.Read E st p = some (res, st1) ∧
      (res.2.2 = none ↔
        ((E.gpgme_data_read st d.dh p).1.2.1 = 0 ∧ (E.gpgme_data_read st d.dh p).1.1 ≠ 0)) ∧
      (res.2.2 = none → res.2.1 = (E.gpgme_data_read st d.dh p).1.1) ∧
      (res.2.2 ≠ none → res.2.1 = 0) ∧
      (res.2.1 < 0 ↔
        ((E.gpgme_data_read st d.dh p).1.2.1 = 0 ∧ (E.gpgme_data_read st d.dh p).1.1 < 0)) ∧
      ((0 < res.2.1 ∧ res.2.1 ≤ (p.length : Int)) ↔
        ((E.gpgme_data_read st d.dh p).1.2.1 = 0 ∧ 0 < (E.gpgme_data_read st d.dh p).1.1 ∧
          (E.gpgme_data_read st d.dh p).1.1 ≤ (p.length : Int)))) := by
  obtain ⟨x, xs, rfl⟩ : ∃ x xs, p = x :: xs := by
    cases p with
    | nil => exact absurd rfl hp
    | cons x xs => exact ⟨x, xs, rfl⟩
  generalize hr : E.gpgme_data_read st d.dh (x :: xs) = r
  obtain ⟨⟨n, errno, buf⟩, st1⟩ := r
  simp only
  have hread : d.Read E st (x :: xs) =
      if cgoErrno errno ≠ none then some ((buf, 0, cgoErrno errno), st1)
      else if n = 0 then some ((buf, 0, some GoError.EOF), st1)
      else some ((buf, n, none), st1) := by
    simp [Data.Read, hr]
  by_cases he : errno = 0
  · have hc : cgoErrno errno = none := by simp [cgoErrno, he]
    by_cases hn : n = 0
    · have hres : d.Read E st (x :: xs) = some ((buf, 0, some GoError.EOF), st1) := by
        rw [hread]; simp [hc, hn]
      refine ⟨fun h => absurd he h, fun _ _ => hres, fun _ h => absurd hn h, ?_, ?_⟩
      · exact ⟨_, _, hres, by simp⟩
      · refine ⟨_, _, hres, ?_, ?_, ?_, ?_, ?_⟩
        · exact ⟨fun h => Option.noConfusion h, fun h => absurd hn h.2⟩
        · intro h
          exact Option.noConfusion h
        · intro _
          rfl
        · exact ⟨fun h => absurd h (lt_irrefl _), fun h => absurd (hn ▸ h.2) (lt_irrefl _)⟩
        · exact ⟨fun h => absurd h.1 (lt_irrefl _), fun h => absurd (hn ▸ h.2.1) (lt_irrefl _)⟩
    · have hres : d.Read E st (x :: xs) = some ((buf, n, none), st1) := by
        rw [hread]; simp [hc, hn]
      refine ⟨fun h => absurd he h, fun _ h => absurd h hn, fun _ _ => hres, ?_, ?_⟩
      · exact ⟨_, _, hres, by simp [hn]⟩
      · refine ⟨_, _, hres, ?_, ?_, ?_, ?_, ?_⟩
        · exact ⟨fun _ => ⟨he, hn⟩, fun _ => rfl⟩
        · intro _
          rfl
        · intro h
          exact absurd rfl h
        · exact ⟨fun h => ⟨he, h⟩, fun h => h.2⟩
        · exact ⟨fun h => ⟨he, h⟩, fun h => h.2⟩
  · have hc : cgoErrno errno = some (GoError.errno errno) := by simp [cgoErrno, he]
    have hres : d.Read E st (x :: xs) = some ((buf, 0, some (GoError.errno errno)), st1) := by
      rw [hread]; simp [hc]
    refine ⟨fun _ => hres, fun h => absurd h he, fun h => absurd h he, ?_, ?_⟩
    · exact ⟨_, _, hres, by simp⟩
    · refine ⟨_, _, hres, ?_, ?_, ?_, ?_, ?_⟩
      · exact ⟨fun h => Option.noConfusion h, fun h => absurd h.1 he⟩
      · intro h
        exact Option.noConfusion h
      · intro _
        rfl
      · exact ⟨fun h => absurd h (lt_irrefl _), fun h => absurd h.1 he⟩
      · exact ⟨fun h => absurd h.1 (lt_irrefl _), fun h => absurd h.1 he⟩

/-- Witness for C9: a memory object holding three unread bytes, read into a
buffer of two, gives the count 2 and no error. -/
theorem Data_Read_result_witness :
    Data.Read memEngine { handle := 1, bytes := [7, 8, 9], offset := 0 }
        { newData with dh := 1 } [0, 0] =
      some (((mem_read { handle := 1, bytes := [7, 8, 9], offset := 0 }
          ({ newData with dh := 1 } : Data).dh [0, 0]).1.2.2,
        (mem_read { handle := 1, bytes := [7, 8, 9], offset := 0 }
          ({ newData with dh := 1 } : Data).dh [0, 0]).1.1, none),
        (mem_read { handle := 1, bytes := [7, 8, 9], offset := 0 }
          ({ newData with dh := 1 } : Data).dh [0, 0]).2) :=
  (Data_Read_result memEngine { handle := 1, bytes := [7, 8, 9], offset := 0 }
    { newData with dh := 1 } [0, 0] (by decide)).2.2.1 (by decide) (by decide)

/-! ## Encrypt -/

theorem set_append_length (pre : List Nat) (a v : Nat) (l : List Nat) :
    (pre ++ a :: l).set pre.length v = pre ++ v :: l := by
  induction pre with
  | nil => rfl
  | cons x xs ih => simp [List.set, ih]

/-- The marshaling loop fills the slots from `pre.length` on with the handles
of the remaining recipients and leaves the last slot as it is. -/
theorem Encrypt_loop_eq (keys : List Key) :
    ∀ (todo : Nat) (pre : List Nat), pre.length + todo = keys.length →
      Encrypt.loop (keys.map some) todo pre.length (pre ++ List.replicate (todo + 1) 0) =
        some (pre ++ (keys.drop pre.length).map Key.k ++ [0]) := by
  intro todo
  induction todo with
  | zero =>
    intro pre h
    have hd : keys.drop pre.length = [] := List.drop_eq_nil_of_le (by omega)
    simp [Encrypt.loop, hd]
  | succ todo ih =>
    intro pre h
    have hlt : pre.length < keys.length := by omega
    have hd : keys.drop pre.length = keys[pre.length] :: keys.drop (pre.length + 1) :=
      List.drop_eq_getElem_cons hlt
    have hget : (keys.map some)[pre.length]? = some (some keys[pre.length]) := by
      simp [List.getElem?_eq_getElem, hlt]
    have hstore : store (pre ++ List.replicate (todo + 1 + 1) 0) pre.length keys[pre.length].k =
        some ((pre ++ [keys[pre.length].k]) ++ List.replicate (todo + 1) 0) := by
      unfold store
      rw [if_pos (by simp)]
      rw [List.replicate_succ, set_append_length]
      simp
    have hnext := ih (pre ++ [keys[pre.length].k]) (by simp; omega)
    simp only [List.length_append, List.length_singleton] at hnext
    rw [Encrypt.loop]
    simp only [hget, hstore]
    rw [hnext, hd]
    simp only [List.map_cons, List.append_assoc, List.cons_append, List.nil_append]

/-- C10: for every list of `n` recipients the array handed to
`gpgme_op_encrypt` has `n + 1` slots, slot `i` holds the handle of
`recipients[i]` for `i < n`, slot `n` is null; the block is allocated with
`calloc(n + 1, 8)`, freed once, after the engine call, whatever code the engine
returned; and the result is `handleError` of that code. -/
theorem Encrypt_marshal (c : Context) (keys : List Key) (flags : Nat)
    (plaintext ciphertext : Data) (err : Nat) :
    c.Encrypt (keys.map some) flags plaintext ciphertext err =
      some (handleError err,
        [CCall.calloc (keys.length + 1) 8,
         CCall.gpgme_op_encrypt c.ctx (keys.map Key.k ++ [0]) (gpgme_encrypt_flags_t flags)
           plaintext.dh ciphertext.dh,
         CCall.free_recp]) ∧
    (keys.map Key.k ++ [0]).length = keys.length + 1 ∧
    (∀ i (h : i < keys.length), (keys.map Key.k ++ [0])[i]? = some keys[i].k) ∧
    (keys.map Key.k ++ [0])[keys.length]? = some 0 := by
  refine ⟨?_, by simp, ?_, ?_⟩
  · have h := Encrypt_loop_eq keys keys.length [] (by simp)
    simp only [List.length_nil, List.nil_append, List.drop_zero] at h
    simp only [Context.Encrypt, List.length_map, h]
  · intro i h
    rw [List.getElem?_append_left (by simpa using h)]
    simp [List.getElem?_eq_getElem, h]
  · rw [List.getElem?_append_right (by simp)]
    simp

/-! ## Data round trip -/

/-- C8: at the empty byte sequence the round trip faults: `Data.Write` takes
the address of element 0 of an empty slice before the engine is called, so
writing the empty sequence to a fresh memory-backed object panics and nothing
is read back. -/
theorem roundTrip_empty_faults (size fuel : Nat) :
    Data.Write memEngine { handle := 1, bytes := [], offset := 0 } (NewData (0, 1)).1 [] = none ∧
    roundTrip memEngine { handle := 1, bytes := [], offset := 0 } (NewData (0, 1)).1 []
      size fuel = none := by
  constructor <;> rfl

/-- One `Data.Read` on the memory-backed object with a non-empty buffer. -/
theorem Data_Read_mem (m : MemData) (d : Data) (size : Nat) (hd : d.dh = m.handle)
    (hh : m.handle ≠ 0) (hsize : 0 < size) :
    d.Read memEngine m (List.replicate size 0) =
      some (((m.bytes.drop m.offset).take (min size (m.bytes.length - m.offset)) ++
          (List.replicate size 0).drop (min size (m.bytes.length - m.offset)),
          ((min size (m.bytes.length - m.offset) : Nat) : Int),
          if min size (m.bytes.length - m.offset) = 0 then some GoError.EOF else none),
        { m with offset := m.offset + min size (m.bytes.length - m.offset) }) := by
  have hcond : ¬ (d.dh = 0 ∨ d.dh ≠ m.handle) := by
    rw [hd]
    simp [hh]
  have hidx : (List.replicate size 0)[0]? = some 0 := by
    obtain ⟨k, rfl⟩ : ∃ k, size = k + 1 := ⟨size - 1, by omega⟩
    simp [List.replicate_succ]
  have hmr : mem_read m d.dh (List.replicate size 0) =
      ((((min size (m.bytes.length - m.offset) : Nat) : Int), 0,
        (m.bytes.drop m.offset).take (min size (m.bytes.length - m.offset)) ++
          (List.replicate size 0).drop (min size (m.bytes.length - m.offset))),
        { m with offset := m.offset + min size (m.bytes.length - m.offset) }) := by
    unfold mem_read
    rw [if_neg hcond]
    simp only [List.length_replicate]
  generalize min size (m.bytes.length - m.offset) = amt at hmr ⊢
  have hD : d.Read memEngine m (List.replicate size 0) =
      if cgoErrno 0 ≠ none then
        some (((m.bytes.drop m.offset).take amt ++ (List.replicate size 0).drop amt, 0,
          cgoErrno 0), { m with offset := m.offset + amt })
      else if (amt : Int) = 0 then
        some (((m.bytes.drop m.offset).take amt ++ (List.replicate size 0).drop amt, 0,
          some GoError.EOF), { m with offset := m.offset + amt })
      else
        some (((m.bytes.drop m.offset).take amt ++ (List.replicate size 0).drop amt,
          (amt : Int), none), { m with offset := m.offset + amt }) := by
    simp only [Data.Read, hidx, memEngine, hmr]
  rw [hD]
  have hc : cgoErrno 0 = none := rfl
  rw [if_neg (not_not.mpr hc)]
  by_cases hz : amt = 0
  · subst hz
    simp
  · have hzi : (amt : Int) ≠ 0 := by exact_mod_cast hz
    rw [if_neg hzi, if_neg hz]

/-- Reading to the end of the memory-backed object yields the bytes after the
cursor and leaves the cursor at the end. -/
theorem readToEOF_mem (d : Data) (size : Nat) (hh : d.dh ≠ 0) (hsize : 0 < size) :
    ∀ (fuel : Nat) (m : MemData) (acc : List Nat), d.dh = m.handle →
      m.offset ≤ m.bytes.length → m.bytes.length - m.offset < fuel →
      readToEOF memEngine d size fuel m acc =
        some ((acc ++ m.bytes.drop m.offset, none), { m with offset := m.bytes.length }) := by
  intro fuel
  induction fuel with
  | zero => intro m acc _ _ hf; omega
  | succ fuel ih =>
    intro m acc hd hoff hf
    have hread := Data_Read_mem m d size hd (hd ▸ hh) hsize
    have hamt : min size (m.bytes.length - m.offset) ≤ (m.bytes.drop m.offset).length := by
      rw [List.length_drop]
      exact Nat.min_le_right _ _
    generalize hdef : min size (m.bytes.length - m.offset) = amt at hread hamt
    have htake : ((m.bytes.drop m.offset).take amt ++ (List.replicate size 0).drop amt).take
        ((amt : Int)).toNat = (m.bytes.drop m.offset).take amt := by
      rw [Int.toNat_ofNat, List.take_append_of_le_length (by rw [List.length_take]; omega)]
      rw [List.take_take, Nat.min_self]
    rw [List.length_drop] at hamt
    rw [readToEOF, hread]
    by_cases hz : amt = 0
    · subst hz
      have hend : m.bytes.length - m.offset = 0 := by
        rcases Nat.min_eq_zero_iff.mp hdef with h | h
        · omega
        · exact h
      have hlen : m.bytes.length = m.offset := by omega
      have hdrop : m.bytes.drop m.offset = [] := List.drop_eq_nil_of_le (by omega)
      simp [hdrop, hlen]
    · simp only [hz, if_false, htake]
      rw [ih { m with offset := m.offset + amt } (acc ++ (m.bytes.drop m.offset).take amt) hd
        (by simp only []; omega) (by simp only []; omega)]
      simp only [List.append_assoc]
      have hsplit : (m.bytes.drop m.offset).take amt ++ m.bytes.drop (m.offset + amt) =
          m.bytes.drop m.offset := by
        rw [← List.drop_drop, List.take_append_drop]
      rw [hsplit]

/-- Round trip on non-empty input: writing a non-empty `B` to a fresh
memory-backed object, seeking to the start and reading into a non-empty buffer
until `io.EOF` yields exactly `B` without error, given fuel for the reads. -/
theorem roundTrip_nonempty (h : Nat) (B : List Nat) (size fuel : Nat) (hh : h ≠ 0)
    (hB : B ≠ []) (hsize : 0 < size) (hfuel : B.length < fuel) :
    roundTrip memEngine { handle := h, bytes := [], offset := 0 } (NewData (0, h)).1 B
        size fuel =
      some ((B, none), { handle := h, bytes := B, offset := B.length }) := by
  obtain ⟨x, xs, rfl⟩ : ∃ x xs, B = x :: xs := by
    cases B with
    | nil => exact absurd rfl hB
    | cons x xs => exact ⟨x, xs, rfl⟩
  have hw : Data.Write memEngine { handle := h, bytes := [], offset := 0 } (NewData (0, h)).1
      (x :: xs) = some ((((x :: xs).length : Int), none),
        { handle := h, bytes := x :: xs, offset := (x :: xs).length }) := by
    have hne : ((xs.length : Int) + 1) ≠ 0 := by omega
    simp [Data.Write, memEngine, mem_write, NewData, newData, hh, cgoErrno, hne]
  have hs : Data.Seek memEngine { handle := h, bytes := x :: xs, offset := (x :: xs).length }
      (NewData (0, h)).1 0 0 = ((0, none), { handle := h, bytes := x :: xs, offset := 0 }) := by
    have hc : C_int_of_int 0 = 0 := by decide
    have hnn : (0 : Int) ≤ (xs.length : Int) + 1 := by omega
    simp [Data.Seek, memEngine, mem_seek, NewData, newData, hh, cgoErrno, hc, hnn]
  have hr := readToEOF_mem (NewData (0, h)).1 size (by simpa [NewData, newData] using hh) hsize
    fuel { handle := h, bytes := x :: xs, offset := 0 } [] (by simp [NewData, newData])
    (by simp) (by simpa using hfuel)
  simp only [roundTrip, hw, hs, hr]
  simp

/-! ## Subkey timestamps -/

theorem int64_of_range (n : Int) (h0 : -2 ^ 63 ≤ n) (h1 : n < 2 ^ 63) : int64 n = n := by
  unfold int64
  omega

theorem time_Unix_zero_nsec (sec : Int) :
    time_Unix sec 0 = { wall := 0, ext := int64 (sec + unixToInternal), loc := true } := by
  simp [time_Unix]

theorem time_Unix_seconds (sec : Int) (h0 : -2 ^ 63 ≤ sec) (h1 : sec < 2 ^ 63) :
    (time_Unix sec 0).Unix = sec ∧ (time_Unix sec 0).Nanosecond = 0 := by
  rw [time_Unix_zero_nsec]
  refine ⟨?_, rfl⟩
  simp only [Time.Unix, int64, unixToInternal]
  omega

theorem time_Unix_not_zero (sec : Int) (h0 : 0 < sec) (h1 : sec < 2 ^ 63) :
    (time_Unix sec 0).IsZero = false ∧ time_Unix sec 0 ≠ Time.zeroValue := by
  rw [time_Unix_zero_nsec]
  have hext : int64 (sec + unixToInternal) ≠ 0 := by
    simp only [int64, unixToInternal]
    omega
  refine ⟨?_, ?_⟩
  · simp [Time.IsZero, hext]
  · simp [Time.zeroValue]

/-- The timestamp accessor pattern shared by `Created` and `Expires`, for a raw
value in the range of a C `long int`. -/
theorem timestamp_accessor (t : Int) (h0 : -2 ^ 63 ≤ t) (h1 : t < 2 ^ 63) :
    (t ≤ 0 → (if t ≤ 0 then Time.zeroValue else time_Unix (int64 t) 0) = Time.zeroValue) ∧
    (0 < t →
      (if t ≤ 0 then Time.zeroValue else time_Unix (int64 t) 0) = time_Unix t 0 ∧
      (if t ≤ 0 then Time.zeroValue else time_Unix (int64 t) 0).Unix = t ∧
      (if t ≤ 0 then Time.zeroValue else time_Unix (int64 t) 0).Nanosecond = 0) ∧
    ((if t ≤ 0 then Time.zeroValue else time_Unix (int64 t) 0).IsZero = true ↔ t ≤ 0) ∧
    ((if t ≤ 0 then Time.zeroValue else time_Unix (int64 t) 0) = Time.zeroValue ↔ t ≤ 0) := by
  rw [int64_of_range t h0 h1]
  by_cases h : t ≤ 0
  · rw [if_pos h]
    exact ⟨fun _ => rfl, fun hp => absurd hp (by omega), ⟨fun _ => h, fun _ => by decide⟩,
      ⟨fun _ => h, fun _ => rfl⟩⟩
  · rw [if_neg h]
    have hpos : 0 < t := by omega
    obtain ⟨hu, hn⟩ := time_Unix_seconds t h0 h1
    obtain ⟨hz, hne⟩ := time_Unix_not_zero t hpos h1
    refine ⟨fun hp => absurd hp h, fun _ => ⟨rfl, hu, hn⟩, ?_, ?_⟩
    · rw [hz]
      exact ⟨fun hf => Bool.noConfusion hf, fun hp => absurd hp h⟩
    · exact ⟨fun he => absurd he hne, fun hp => absurd hp h⟩

/-- C11: for every raw value `t` of a subkey's created or expires field (a C
`long int`), the accessor returns the zero time when `t <= 0` and, when
`t > 0`, `time.Unix(t, 0)`, the instant whose Unix seconds are `t` and whose
nanoseconds are zero; the result is the zero time (and `IsZero` holds) exactly
when `t <= 0`. -/
theorem SubKey_timestamps (k : SubKey)
    (hc : -2 ^ 63 ≤ k.k.timestamp ∧ k.k.timestamp < 2 ^ 63)
    (he : -2 ^ 63 ≤ k.k.expires ∧ k.k.expires < 2 ^ 63) :
    ((k.k.timestamp ≤ 0 → k.Created = Time.zeroValue) ∧
      (0 < k.k.timestamp →
        k.Created = time_Unix k.k.timestamp 0 ∧ k.Created.Unix = k.k.timestamp ∧
        k.Created.Nanosecond = 0) ∧
      (k.Created.IsZero = true ↔ k.k.timestamp ≤ 0) ∧
      (k.Created = Time.zeroValue ↔ k.k.timestamp ≤ 0)) ∧
    ((k.k.expires ≤ 0 → k.Expires = Time.zeroValue) ∧
      (0 < k.k.expires →
        k.Expires = time_Unix k.k.expires 0 ∧ k.Expires.Unix = k.k.expires ∧
        k.Expires.Nanosecond = 0) ∧
      (k.Expires.IsZero = true ↔ k.k.expires ≤ 0) ∧
      (k.Expires = Time.zeroValue ↔ k.k.expires ≤ 0)) :=
  ⟨timestamp_accessor k.k.timestamp hc.1 hc.2, timestamp_accessor k.k.expires he.1 he.2⟩

/-- Witness for C11: a subkey created at Unix second 1400000000 that does not
expire. -/
theorem SubKey_timestamps_witness :
    (SubKey.Created { k := { timestamp := 1400000000, expires := 0 }, parent := none }).Unix =
      1400000000 ∧
    SubKey.Expires { k := { timestamp := 1400000000, expires := 0 }, parent := none } =
      Time.zeroValue :=
  ⟨((SubKey_timestamps { k := { timestamp := 1400000000, expires := 0 }, parent := none }
      ⟨by decide, by decide⟩ ⟨by decide, by decide⟩).1.2.1 (by decide)).2.1,
   (SubKey_timestamps { k := { timestamp := 1400000000, expires := 0 }, parent := none }
      ⟨by decide, by decide⟩ ⟨by decide, by decide⟩).2.1 (by decide)⟩

/-! ## Element-0 accesses -/

/-- C12: the element-0 accesses are not safe on empty input: `NewDataBytes`,
`Data.Write` and `Data.Read` fault on the empty slice before the engine is
called, whatever the engine, and the read callback faults on a request of size
0 whenever the host read reports no error or `io.EOF`. -/
theorem element0_access_faults :
    (∀ new_from_mem : List Nat → Nat → Int → Nat × Nat, NewDataBytes new_from_mem [] = none) ∧
    (∀ (σ : Type) (E : DataEngine σ) (st : σ) (d : Data),
      d.Write E st [] = none ∧ d.Read E st [] = none) ∧
    (∀ (Read : List Nat → HostRead) (buffer : List Nat),
      (Read []).buf = [] → ((Read []).err = none ∨ (Read []).err = some GoError.EOF) →
      gogpgme_readfunc Read buffer 0 = none) ∧
    gogpgme_readfunc (fun buf => { buf := buf, n := 0, err := some GoError.EOF }) [] 0 = none := by
  refine ⟨fun _ => rfl, fun _ _ _ _ => ⟨rfl, rfl⟩, ?_, by decide⟩
  intro Read buffer hbuf herr
  have hcond : ¬ ((Read []).err ≠ none ∧ (Read []).err ≠ some GoError.EOF) := by
    rcases herr with h | h <;> simp [h]
  simp only [gogpgme_readfunc, List.replicate_zero, hcond, if_false, hbuf]
  rfl

/-- On non-empty input the element-0 accesses are in range: `NewDataBytes`,
`Data.Write` and `Data.Read` return for every non-empty slice. -/
theorem element0_access_nonempty {σ : Type} (new_from_mem : List Nat → Nat → Int → Nat × Nat)
    (E : DataEngine σ) (st : σ) (d : Data) (b : List Nat) (hb : b ≠ []) :
    (NewDataBytes new_from_mem b).isSome = true ∧ (d.Write E st b).isSome = true ∧
    (d.Read E st b).isSome = true := by
  obtain ⟨x, xs, rfl⟩ : ∃ x xs, b = x :: xs := by
    cases b with
    | nil => exact absurd rfl hb
    | cons x xs => exact ⟨x, xs, rfl⟩
  refine ⟨by simp [NewDataBytes], ?_, ?_⟩
  · simp only [Data.Write, List.getElem?_cons_zero]
    split_ifs <;> rfl
  · simp only [Data.Read, List.getElem?_cons_zero]
    split_ifs <;> rfl

end Gpgme
